import Mathlib

/-!
Shallow embedding of the genie-tales generation-to-artifact pipeline and
video assembly stage.

The embedding covers:
* utils/fileUtils.ts: saveBase64ImageToFile (base64 data-URI stripping via
  String.split followed by pop with a falsy fallback) and writeStreamToFile
  (an async function that pipes a readable stream into a file stream and
  builds, but neither awaits nor returns, the promise tracking completion);
* services/videoGen.ts: VideoGenerator.generateVideo, which loops over
  story.contents in order, pushes one manifest line per page, runs one
  ffmpeg command per page, writes the concat list file, and runs a single
  merge command;
* services/llm.ts: StoryGeneratorService.generateArtifactDirs and the
  materialization loops plus story-content assembly of generateStory.

External effects are made explicit: the file system is an association list
from paths to file data, external commands are recorded in a trace and
answered by an environment function, and JS promises are modelled by their
settled result together with the moment they settle.
-/

/-! ## Path model -/

/-- Model of path.join applied to plain segments: join with one slash. -/
def pathJoin (a b : String) : String := a ++ "/" ++ b

/-! ## File-system model -/

/-- Data stored in a file. Base64-decoded bytes are kept symbolically as the
decoded payload string, so that which payload was decoded stays visible. -/
inductive FileData where
  | bytes (raw : List Char)
  | base64Decoded (payload : List Char)
  | text (contents : String)
deriving DecidableEq, Repr

/-- The file system: written files in creation order, keyed by path. -/
abbrev Fs := List (String × FileData)

/-- Writing a file: replace the entry when the path already exists
(overwrite), otherwise append a new entry. -/
def fsWrite (fs : Fs) (path : String) (d : FileData) : Fs :=
  if fs.any (fun e => e.1 == path) then
    fs.map (fun e => if e.1 == path then (path, d) else e)
  else fs ++ [(path, d)]

/-- Reading a file by path. -/
def fsLookup (fs : Fs) (path : String) : Option FileData :=
  (fs.find? (fun e => e.1 == path)).map (fun e => e.2)

/-! ## JS Map model (insertion-ordered, set replaces on an existing key) -/

/-- Model of Map.set: update in place when the key exists, else append. -/
def mapSet (m : List (Nat × String)) (k : Nat) (v : String) : List (Nat × String) :=
  if m.any (fun e => e.1 == k) then
    m.map (fun e => if e.1 == k then (k, v) else e)
  else m ++ [(k, v)]

/-- Model of Map.get: the stored value, or none (undefined) when absent. -/
def mapGet (m : List (Nat × String)) (k : Nat) : Option String :=
  (m.find? (fun e => e.1 == k)).map (fun e => e.2)

/-! ## fileUtils.ts: saveBase64ImageToFile -/

/-- The separator used by saveBase64ImageToFile. -/
def sepBase64 : List Char := (";base64,").data

/-- Fuelled model of the JS String.prototype.split for a non-empty string
separator: scan left to right, cut at each non-overlapping occurrence of
the separator. Fuel at least the length of the input makes the fuel case
unreachable. -/
def jsSplitFuel (sep : List Char) : Nat → List Char → List (List Char)
  | 0, l => [l]
  | fuel + 1, l =>
    if sep.isPrefixOf l then
      [] :: jsSplitFuel sep fuel (l.drop sep.length)
    else
      match l with
      | [] => [[]]
      | c :: rest =>
        match jsSplitFuel sep fuel rest with
        | [] => [[c]]
        | h :: t => (c :: h) :: t

/-- JS split with enough fuel to process the whole input. -/
def jsSplit (sep l : List Char) : List (List Char) :=
  jsSplitFuel sep (l.length + 1) l

/-- Embedding of the selection line of saveBase64ImageToFile:
base64Data.split(sep).pop() || base64Data. The popped last component is
kept when it is truthy (non-empty); an empty pop result, or an undefined
pop from an empty array, falls back to the whole input. -/
def base64Image (base64Data : List Char) : List Char :=
  match (jsSplit sepBase64 base64Data).getLast? with
  | some lastPart => if lastPart = [] then base64Data else lastPart
  | none => base64Data

/-- Embedding of saveBase64ImageToFile: strip the data-URI header as the
source does, then write the decoded buffer to filePath. -/
def saveBase64ImageToFile (fs : Fs) (base64Data : List Char) (filePath : String) : Fs :=
  fsWrite fs filePath (FileData.base64Decoded (base64Image base64Data))

/-! ## fileUtils.ts: writeStreamToFile -/

/-- How a readable stream ends: a finish event or an error event. -/
inductive StreamOutcome where
  | finished
  | errored (message : String)
deriving DecidableEq, Repr

/-- A readable stream: the bytes it delivers to the pipe destination, and
how it settles afterwards. -/
structure ReadableStream where
  delivered : List Char
  outcome : StreamOutcome
deriving DecidableEq, Repr

/-- When a promise settles relative to the stream being drained. -/
inductive SettleTime where
  | immediate
  | afterStreamEnd
deriving DecidableEq, Repr

/-- A JS promise, modelled by its settled result and settle moment. -/
structure PromiseModel where
  result : Except String Unit
  settleTime : SettleTime
deriving Repr

/-- The promise constructed inside writeStreamToFile: it resolves on the
finish event and rejects on the error event, hence settles only after the
stream has ended. -/
def streamCompletionPromise (outcome : StreamOutcome) : PromiseModel :=
  { result :=
      match outcome with
      | StreamOutcome.finished => Except.ok ()
      | StreamOutcome.errored e => Except.error e
    settleTime := SettleTime.afterStreamEnd }

/-- Result of calling writeStreamToFile: the eventual file system and the
promise returned to the caller. -/
structure WriteStreamRun where
  fs : Fs
  returned : PromiseModel
deriving Repr

/-- Embedding of writeStreamToFile: create the write stream, pipe the input
stream into it (the delivered bytes land in the file), and construct the
completion promise. The source neither awaits nor returns that promise, so
the async function body finishes at once and the promise handed to the
caller is already fulfilled with unit, independent of the stream outcome. -/
def writeStreamToFile (fs : Fs) (stream : ReadableStream) (fileName : String) : WriteStreamRun :=
  let piped := fsWrite fs fileName (FileData.bytes stream.delivered)
  let _discarded := streamCompletionPromise stream.outcome
  { fs := piped
    returned := { result := Except.ok (), settleTime := SettleTime.immediate } }

/-! ## videoGen.ts: VideoGenerator -/

/-- Fixed name of the final combined video file. -/
def VIDEO_NAME : String := "story.mp4"

/-- One entry of story.contents as consumed by the video generator. -/
structure StoryContent where
  pageNumber : Nat
  story : String
  illustrationPrompts : String
  imagePath : Option String
  audioPath : Option String
deriving DecidableEq, Repr

/-- The story aggregate handed to the video generator. -/
structure Story where
  title : String
  contents : List StoryContent
deriving DecidableEq, Repr

/-- JS template-literal interpolation of a possibly-undefined string. -/
def jsShow : Option String → String
  | some s => s
  | none => "undefined"

/-- Per-page clip file name, page-N.mp4, placed directly in tmpFolder. -/
def clipFileName (p : Nat) : String := "page-" ++ toString p ++ ".mp4"

/-- The temporary working folder of one VideoGenerator instance. -/
def tmpFolderOf (osTmpDir uuid : String) : String :=
  pathJoin (pathJoin osTmpDir ("genie-videos")) uuid

/-- Path of the concat list file inside the temporary folder. -/
def fileListPathOf (osTmpDir uuid : String) : String :=
  pathJoin (tmpFolderOf osTmpDir uuid) ("file_list.txt")

/-- Absolute path of the clip produced for page p. -/
def clipPathOf (osTmpDir uuid : String) (p : Nat) : String :=
  pathJoin (tmpFolderOf osTmpDir uuid) (clipFileName p)

/-- External commands issued by generateVideo, kept structured in the
trace; render gives the exact shell string passed to exec. -/
inductive Cmd where
  | clip (image audio outputVideo : String)
  | merge (fileListPath finalVideo : String)
deriving DecidableEq, Repr

/-- The shell string the source builds for each command. -/
def render : Cmd → String
  | Cmd.clip image audio outputVideo =>
      "ffmpeg -loop 1 -i " ++ image ++ " -i " ++ audio ++
        " -c:v libx264 -tune stillimage -shortest -pix_fmt yuv420p -y " ++ outputVideo
  | Cmd.merge fileListPath finalVideo =>
      "rm -f " ++ finalVideo ++ " && ffmpeg -f concat -safe 0 -i " ++ fileListPath ++
        " -c copy " ++ finalVideo

/-- Environment answering external commands: standard output on success,
a diagnostic on a non-zero exit. -/
abbrev ExecEnv := String → Except String String

/-- The ffmpeg clip command generateVideo issues for one content entry. -/
def clipCmdOf (tmpFolder : String) (c : StoryContent) : Cmd :=
  Cmd.clip (jsShow c.imagePath) (jsShow c.audioPath)
    (pathJoin tmpFolder (clipFileName c.pageNumber))

/-- The manifest line pushed for page p: file followed by the clip path. -/
def manifestEntry (tmpFolder : String) (p : Nat) : String :=
  "file " ++ pathJoin tmpFolder (clipFileName p)

/-- Embedding of the per-page loop of generateVideo. For each content
entry, in order: push the manifest line, then run the ffmpeg clip command;
a failing command aborts the loop with that error. Returns the loop
result, the accumulated fileListContents, and the commands issued. -/
def processPages (env : ExecEnv) (tmpFolder : String) :
    List StoryContent → List String → List Cmd →
    Except String Unit × List String × List Cmd
  | [], acc, cmds => (Except.ok (), acc, cmds)
  | c :: rest, acc, cmds =>
    let cmd := clipCmdOf tmpFolder c
    let acc2 := acc ++ [manifestEntry tmpFolder c.pageNumber]
    let cmds2 := cmds ++ [cmd]
    match env (render cmd) with
    | Except.error e => (Except.error e, acc2, cmds2)
    | Except.ok _ => processPages env tmpFolder rest acc2 cmds2

/-- Trace of one generateVideo run: external commands issued and files
written by the generator itself. -/
structure VideoRun where
  commands : List Cmd
  files : Fs
deriving DecidableEq, Repr

/-- Embedding of VideoGenerator.generateVideo: run the per-page loop over
story.contents, then write the concat list file by joining the collected
lines with a newline separator, then run the single merge command and
return the final video path. A failure at any await aborts the run with
that error and skips everything after it. -/
def generateVideo (env : ExecEnv) (osTmpDir uuid : String) (story : Story)
    (outputFolder : String) : Except String String × VideoRun :=
  let tmpFolder := tmpFolderOf osTmpDir uuid
  let fileListPath := fileListPathOf osTmpDir uuid
  match processPages env tmpFolder story.contents [] [] with
  | (Except.error e, _, cmds) => (Except.error e, { commands := cmds, files := [] })
  | (Except.ok _, fileListContents, cmds) =>
    let manifest := String.intercalate "\n" fileListContents
    let files : Fs := [(fileListPath, FileData.text manifest)]
    let finalVideo := pathJoin outputFolder VIDEO_NAME
    let mergeCmd := Cmd.merge fileListPath finalVideo
    match env (render mergeCmd) with
    | Except.error e => (Except.error e, { commands := cmds ++ [mergeCmd], files := files })
    | Except.ok _ => (Except.ok finalVideo, { commands := cmds ++ [mergeCmd], files := files })

/-! ## llm.ts: StoryGeneratorService -/

/-- One page of the LLM story response. -/
structure LlmStoryPage where
  pageNumber : Nat
  story : String
  illustationPrompt : String
deriving DecidableEq, Repr

/-- The LLM story response. -/
structure LlmStoryResponse where
  storyTitle : String
  pages : List LlmStoryPage
deriving DecidableEq, Repr

/-- One generated image: page number and base64 payload. -/
structure LlmImagePageResponse where
  pageNumber : Nat
  illustationPrompt : String
  base64 : List Char
deriving DecidableEq, Repr

/-- One generated narration: page number and audio stream. -/
structure LlmAudioPageResponse where
  pageNumber : Nat
  storyContent : String
  audioStream : ReadableStream
deriving DecidableEq, Repr

/-- Embedding of generateArtifactDirs: the images and audios directories
live under one fresh uuid below genie-tales in the OS temp directory. -/
def generateArtifactDirs (osTmpDir uuid : String) : String × String :=
  (pathJoin (pathJoin (pathJoin osTmpDir ("genie-tales")) uuid) ("images"),
   pathJoin (pathJoin (pathJoin osTmpDir ("genie-tales")) uuid) ("audios"))

/-- Image artifact path for page p inside the images directory. -/
def imageFilePathOf (imageDir : String) (p : Nat) : String :=
  pathJoin imageDir (toString p ++ ".png")

/-- Audio artifact path for page p inside the audios directory. -/
def audioFilePathOf (audioDir : String) (p : Nat) : String :=
  pathJoin audioDir (toString p ++ ".mp3")

/-- Embedding of the image materialization loop of generateStory: save
each base64 payload to its page-addressed path, then record the path in
the image map. -/
def saveImages (imageDir : String) :
    List LlmImagePageResponse → Fs → List (Nat × String) → Fs × List (Nat × String)
  | [], fs, m => (fs, m)
  | image :: rest, fs, m =>
    let imageFilePath := imageFilePathOf imageDir image.pageNumber
    let fs2 := saveBase64ImageToFile fs image.base64 imageFilePath
    saveImages imageDir rest fs2 (mapSet m image.pageNumber imageFilePath)

/-- Embedding of the audio materialization loop of generateStory: drain
each audio stream to its page-addressed path via writeStreamToFile, then
record the path in the audio map. -/
def saveAudios (audioDir : String) :
    List LlmAudioPageResponse → Fs → List (Nat × String) → Fs × List (Nat × String)
  | [], fs, m => (fs, m)
  | audio :: rest, fs, m =>
    let audioFilePath := audioFilePathOf audioDir audio.pageNumber
    let run := writeStreamToFile fs audio.audioStream audioFilePath
    saveAudios audioDir rest run.fs (mapSet m audio.pageNumber audioFilePath)

/-- Embedding of the story-content assembly of generateStory: map over the
LLM pages in order, copying the text fields and looking up the artifact
paths by page number. -/
def storyContentsOf (pages : List LlmStoryPage)
    (imageMap audioMap : List (Nat × String)) : List StoryContent :=
  pages.map fun page =>
    { pageNumber := page.pageNumber
      story := page.story
      illustrationPrompts := page.illustationPrompt
      imagePath := mapGet imageMap page.pageNumber
      audioPath := mapGet audioMap page.pageNumber }

/-! ## Concrete demo inputs for witnesses and counterexamples -/

/-- Environment in which every external command succeeds. -/
def envOk : ExecEnv := fun _ => Except.ok ("")

/-- Concrete story page with materialized artifact paths. -/
def demoPage (n : Nat) : StoryContent :=
  { pageNumber := n
    story := "once upon a time"
    illustrationPrompts := "a drawing"
    imagePath := some (pathJoin ("/assets") (toString n ++ ".png"))
    audioPath := some (pathJoin ("/assets") (toString n ++ ".mp3")) }

/-- Two pages arriving in descending page order. -/
def demoStory21 : Story := { title := "demo", contents := [demoPage 2, demoPage 1] }

/-- Two pages with a gap: page numbers 1 and 3, no page 2. -/
def demoStoryGap : Story := { title := "demo", contents := [demoPage 1, demoPage 3] }

/-- Environment that fails exactly on the clip command of demo page 1
issued from the demo temporary folder. -/
def envFailPage1 : ExecEnv := fun s =>
  if s = render (clipCmdOf (tmpFolderOf ("/tmp") ("u")) (demoPage 1)) then
    Except.error ("ffmpeg exited with code 1")
  else Except.ok ("")

/-! ## Lemmas about the JS split model -/

/-- A list is a Boolean prefix of itself followed by anything. -/
theorem isPrefixOf_append_self : ∀ (s l : List Char), s.isPrefixOf (s ++ l) = true
  | [], _ => by simp [List.isPrefixOf]
  | a :: as, l => by simp [List.isPrefixOf, isPrefixOf_append_self as l]

/-- The separator has eight characters. -/
theorem sepBase64_length : sepBase64.length = 8 := rfl

/-- A Boolean prefix is no longer than the whole list. -/
theorem length_le_of_isPrefixOf (s l : List Char) (h : s.isPrefixOf l = true) :
    s.length ≤ l.length :=
  (List.isPrefixOf_iff_prefix.mp h).length_le

/-- The split result does not depend on the fuel once the fuel exceeds the
input length. -/
theorem jsSplitFuel_congr : ∀ (f g : Nat) (l : List Char),
    l.length < f → l.length < g →
    jsSplitFuel sepBase64 f l = jsSplitFuel sepBase64 g l := by
  intro f
  induction f with
  | zero => intro g l hf hg; exact absurd hf (by omega)
  | succ n ih =>
    intro g l hf hg
    cases g with
    | zero => exact absurd hg (by omega)
    | succ m =>
      simp only [jsSplitFuel]
      cases hp : sepBase64.isPrefixOf l with
      | true =>
        simp only [hp, if_true]
        have hlen : (8 : Nat) ≤ l.length := by
          have := length_le_of_isPrefixOf _ _ hp
          simpa [sepBase64_length] using this
        have hdrop : (l.drop sepBase64.length).length = l.length - 8 := by
          simp [List.length_drop, sepBase64_length]
        rw [ih m (l.drop sepBase64.length) (by omega) (by omega)]
      | false =>
        simp only [hp, Bool.false_eq_true, if_false]
        cases l with
        | nil => rfl
        | cons c rest =>
          have hr : rest.length < n := by
            simpa using Nat.lt_of_succ_lt_succ hf
          have hr2 : rest.length < m := by
            simpa using Nat.lt_of_succ_lt_succ hg
          simp only [ih m rest hr hr2]

/-- The split never returns an empty list of components. -/
theorem jsSplitFuel_ne_nil (sep : List Char) (f : Nat) (l : List Char) :
    jsSplitFuel sep f l ≠ [] := by
  cases f with
  | zero => simp [jsSplitFuel]
  | succ n =>
    simp only [jsSplitFuel]
    split
    · simp
    · split
      · simp
      · split <;> simp

/-- When the separator does not occur in the input, the split returns the
whole input as the single component. -/
theorem jsSplitFuel_eq_single : ∀ (f : Nat) (l : List Char), l.length < f →
    ¬ (sepBase64 <:+: l) → jsSplitFuel sepBase64 f l = [l] := by
  intro f
  induction f with
  | zero => intro l hf; exact absurd hf (by omega)
  | succ n ih =>
    intro l hf hinf
    simp only [jsSplitFuel]
    cases hp : sepBase64.isPrefixOf l with
    | true => exact absurd (List.isPrefixOf_iff_prefix.mp hp).isInfix hinf
    | false =>
      simp only [hp, Bool.false_eq_true, if_false]
      cases l with
      | nil => rfl
      | cons c rest =>
        have hrec : jsSplitFuel sepBase64 n rest = [rest] := by
          refine ih rest (by simpa using Nat.lt_of_succ_lt_succ hf) ?_
          intro hsub
          exact hinf (List.infix_cons hsub)
        simp only [hrec]

/-- Version of the single-component lemma at the default fuel. -/
theorem jsSplit_eq_single (l : List Char) (h : ¬ (sepBase64 <:+: l)) :
    jsSplit sepBase64 l = [l] :=
  jsSplitFuel_eq_single _ l (Nat.lt_succ_self _) h

/-- Splitting an input that starts with the separator cuts an empty first
component and continues behind the separator. -/
theorem jsSplit_sep_append (l : List Char) :
    jsSplit sepBase64 (sepBase64 ++ l) = [] :: jsSplit sepBase64 l := by
  have key : jsSplit sepBase64 (sepBase64 ++ l) =
      [] :: jsSplitFuel sepBase64 ((sepBase64 ++ l).length) l := by
    simp only [jsSplit, jsSplitFuel, isPrefixOf_append_self, if_true, List.drop_left]
  rw [key]
  refine congrArg ([] :: ·) ?_
  apply jsSplitFuel_congr
  · simp only [List.length_append, sepBase64_length]
    omega
  · omega

/-- The separator starts with a semicolon, so it is not a Boolean prefix of
any input starting with a different character. -/
theorem sep_isPrefixOf_cons (c : Char) (l : List Char) (hc : c ≠ ';') :
    sepBase64.isPrefixOf (c :: l) = false := by
  have hsep : sepBase64 = ';' :: ("base64,").data := rfl
  rw [hsep]
  simp only [List.isPrefixOf, Bool.and_eq_false_iff]
  left
  simpa using fun h => hc h.symm

/-- Splitting after a leading character that cannot start the separator
prepends that character to the first component. -/
theorem jsSplit_cons_of_ne (c : Char) (l : List Char) (hc : c ≠ ';') :
    jsSplit sepBase64 (c :: l) =
      match jsSplit sepBase64 l with
      | [] => [[c]]
      | h :: t => (c :: h) :: t := by
  have hp := sep_isPrefixOf_cons c l hc
  simp only [jsSplit, List.length_cons, jsSplitFuel, hp, Bool.false_eq_true, if_false]

/-- Splitting behind a block that contains no semicolon prepends the block
to the first component of the remaining split. -/
theorem jsSplit_append_no_semi : ∀ (pre : List Char), ';' ∉ pre →
    ∀ (l hd : List Char) (tl : List (List Char)),
      jsSplit sepBase64 l = hd :: tl →
      jsSplit sepBase64 (pre ++ l) = (pre ++ hd) :: tl := by
  intro pre
  induction pre with
  | nil => intro _ l hd tl h; simpa using h
  | cons c rest ih =>
    intro hmem l hd tl h
    have hc : c ≠ ';' := by
      intro hch
      exact hmem (by simp [hch])
    have hrest : ';' ∉ rest := fun hr => hmem (List.mem_cons_of_mem _ hr)
    have hih := ih hrest l hd tl h
    rw [List.cons_append, jsSplit_cons_of_ne c (rest ++ l) hc, hih]
    rfl

/-- The split at the default fuel is never empty. -/
theorem jsSplit_ne_nil (l : List Char) : jsSplit sepBase64 l ≠ [] :=
  jsSplitFuel_ne_nil _ _ _

/-- Whenever the input starts with the separator, the split cuts an empty
first component and continues behind the separator. -/
theorem jsSplit_of_isPrefixOf (l : List Char) (h : sepBase64.isPrefixOf l = true) :
    jsSplit sepBase64 l = [] :: jsSplit sepBase64 (l.drop sepBase64.length) := by
  have h8 : 8 ≤ l.length := by
    have := length_le_of_isPrefixOf _ _ h
    simpa [sepBase64_length] using this
  have key : jsSplit sepBase64 l =
      [] :: jsSplitFuel sepBase64 l.length (l.drop sepBase64.length) := by
    simp only [jsSplit, jsSplitFuel, h, if_true]
  rw [key]
  refine congrArg ([] :: ·) ?_
  apply jsSplitFuel_congr
  · simp only [List.length_drop, sepBase64_length]
    omega
  · omega

/-- Splitting after a leading character at which the separator does not
start prepends that character to the first component. -/
theorem jsSplit_cons_not_sep_start (c : Char) (l : List Char)
    (h : sepBase64.isPrefixOf (c :: l) = false) :
    jsSplit sepBase64 (c :: l) =
      match jsSplit sepBase64 l with
      | [] => [[c]]
      | h :: t => (c :: h) :: t := by
  simp only [jsSplit, List.length_cons, jsSplitFuel, h, Bool.false_eq_true, if_false]

/-- An input containing the separator splits into at least two
components. -/
theorem jsSplit_two_le_length :
    ∀ (n : Nat) (m : List Char), m.length ≤ n → sepBase64 <:+: m →
      2 ≤ (jsSplit sepBase64 m).length := by
  intro n
  induction n with
  | zero =>
    intro m hlen hinf
    have hm : m = [] := by
      cases m with
      | nil => rfl
      | cons c m' => simp at hlen
    subst hm
    rcases hinf with ⟨s, t, hst⟩
    have hlen2 := congrArg List.length hst
    simp only [List.length_append, sepBase64_length, List.length_nil] at hlen2
    omega
  | succ n ih =>
    intro m hlen hinf
    by_cases hp : sepBase64.isPrefixOf m = true
    · rw [jsSplit_of_isPrefixOf m hp]
      have hpos := List.length_pos.mpr (jsSplit_ne_nil (m.drop sepBase64.length))
      simp only [List.length_cons]
      omega
    · rcases hinf with ⟨s, t, hst⟩
      cases s with
      | nil =>
        refine absurd ?_ hp
        rw [← hst]
        simp only [List.nil_append]
        exact isPrefixOf_append_self sepBase64 t
      | cons a s' =>
        cases m with
        | nil => simp at hst
        | cons c restm =>
          have hst' : a :: (s' ++ sepBase64 ++ t) = c :: restm := by simpa using hst
          obtain ⟨-, hm⟩ := List.cons.inj hst'
          have hinf' : sepBase64 <:+: restm := ⟨s', t, hm⟩
          have hpf : sepBase64.isPrefixOf (c :: restm) = false := Bool.eq_false_iff.mpr hp
          have h2 := ih restm (by simp only [List.length_cons] at hlen; omega) hinf'
          rw [jsSplit_cons_not_sep_start c restm hpf]
          obtain ⟨h1, t1, hht⟩ := List.exists_cons_of_ne_nil (jsSplit_ne_nil restm)
          rw [hht] at h2 ⊢
          simpa using h2

/-- Core characterization: for an input consisting of any block, the
separator, and a remainder free of the separator (that is, a remainder
behind the last occurrence), the last split component is exactly the
remainder. The block is arbitrary: it may contain semicolons and further
occurrences of the separator. The separator has no border (no non-trivial
prefix of it is also a suffix), so occurrences cannot overlap and the
left-to-right scan always ends on the remainder. -/
theorem getLast_jsSplit_after_sep :
    ∀ (n : Nat) (pre r : List Char), pre.length ≤ n → ¬ (sepBase64 <:+: r) →
      (jsSplit sepBase64 (pre ++ (sepBase64 ++ r))).getLast? = some r := by
  intro n
  induction n with
  | zero =>
    intro pre r hlen hnosep
    have hpre : pre = [] := by
      cases pre with
      | nil => rfl
      | cons c pre' => simp at hlen
    subst hpre
    rw [List.nil_append, jsSplit_sep_append, jsSplit_eq_single r hnosep,
      List.getLast?_cons_cons, List.getLast?_singleton]
  | succ n ih =>
    intro pre r hlen hnosep
    cases pre with
    | nil =>
      rw [List.nil_append, jsSplit_sep_append, jsSplit_eq_single r hnosep,
        List.getLast?_cons_cons, List.getLast?_singleton]
    | cons c pre' =>
      by_cases hp : sepBase64.isPrefixOf ((c :: pre') ++ (sepBase64 ++ r)) = true
      · by_cases h8 : 8 ≤ (c :: pre').length
        · rw [jsSplit_of_isPrefixOf _ hp]
          have hdrop : ((c :: pre') ++ (sepBase64 ++ r)).drop sepBase64.length =
              (c :: pre').drop 8 ++ (sepBase64 ++ r) := by
            rw [sepBase64_length]
            exact List.drop_append_of_le_length h8
          rw [hdrop]
          obtain ⟨h1, t1, hht⟩ := List.exists_cons_of_ne_nil
            (jsSplit_ne_nil ((c :: pre').drop 8 ++ (sepBase64 ++ r)))
          rw [hht, List.getLast?_cons_cons, ← hht]
          refine ih _ r ?_ hnosep
          simp only [List.length_drop, List.length_cons]
          simp only [List.length_cons] at hlen
          omega
        · exfalso
          obtain ⟨t, ht⟩ := List.isPrefixOf_iff_prefix.mp hp
          have e2 : ((c :: pre') ++ (sepBase64 ++ r))[(c :: pre').length]? = some ';' := by
            rw [List.getElem?_append_right (le_refl _), Nat.sub_self]
            simp [sepBase64]
          rw [← ht, List.getElem?_append] at e2
          rw [if_pos (by simp only [sepBase64_length]; omega)] at e2
          have hk1 : 1 ≤ (c :: pre').length := by simp
          have hk7 : (c :: pre').length ≤ 7 := by
            simp only [List.length_cons] at h8 ⊢
            omega
          generalize hgen : (c :: pre').length = k at e2 hk1 hk7
          interval_cases k <;> exact absurd e2 (by decide)
      · have hpf : sepBase64.isPrefixOf (c :: (pre' ++ (sepBase64 ++ r))) = false := by
          rw [← List.cons_append]
          exact Bool.eq_false_iff.mpr hp
        have h2 : 2 ≤ (jsSplit sepBase64 (pre' ++ (sepBase64 ++ r))).length :=
          jsSplit_two_le_length (pre' ++ (sepBase64 ++ r)).length _ (le_refl _)
            ⟨pre', r, by simp⟩
        have hlast := ih pre' r (by simp only [List.length_cons] at hlen; omega) hnosep
        rw [List.cons_append, jsSplit_cons_not_sep_start c _ hpf]
        obtain ⟨h1, t1, hht⟩ := List.exists_cons_of_ne_nil
          (jsSplit_ne_nil (pre' ++ (sepBase64 ++ r)))
        rw [hht] at hlast h2
        cases t1 with
        | nil => simp at h2
        | cons g2 t2 =>
          rw [hht]
          show ((c :: h1) :: g2 :: t2).getLast? = some r
          rw [List.getLast?_cons_cons]
          rw [List.getLast?_cons_cons] at hlast
          exact hlast

/-! ## Claims C7 and C10: base64 payload selection -/

/-- C7, as stated, fails on a payload that ends with the separator: the
claim requires the data-URI header to be stripped, which would leave the
empty payload, but the code decodes the whole original string instead. -/
theorem c7_counterexample :
    base64Image (("data:image/png;base64,").data) = ("data:image/png;base64,").data ∧
      ("data:image/png;base64,").data ≠ ([] : List Char) := by
  exact ⟨by decide, by decide⟩

/-- C7 (amended): when the payload contains no separator it is decoded
as-is; and for every payload made of an arbitrary prefix block, the
separator, and a non-empty remainder containing no further separator (so
that separator occurrence is the last one), the prefix is stripped and
exactly the remainder is decoded. A payload whose remainder after the
last separator is empty falls outside this amendment and is decoded
whole. -/
theorem c7_base64_selection (r : List Char) (hnosep : ¬ (sepBase64 <:+: r)) :
    base64Image r = r ∧
      (r ≠ [] → ∀ pre : List Char, base64Image ((pre ++ sepBase64) ++ r) = r) := by
  constructor
  · unfold base64Image
    rw [jsSplit_eq_single r hnosep]
    simp only [List.getLast?_singleton]
    split <;> simp_all
  · intro hr pre
    unfold base64Image
    rw [List.append_assoc,
      getLast_jsSplit_after_sep pre.length pre r (le_refl _) hnosep]
    simp [hr]

/-- Witness for C7 at a concrete payload whose header itself contains a
semicolon, as in a data URI with a charset parameter. -/
theorem c7_witness :
    base64Image (("AAA").data) = ("AAA").data ∧
      base64Image ((("data:text/plain;charset=utf-8").data ++ sepBase64) ++ ("AAA").data) =
        ("AAA").data := by
  have h := c7_base64_selection (("AAA").data) (by decide)
  exact ⟨h.1, h.2 (by decide) (("data:text/plain;charset=utf-8").data)⟩

/-- C10: for every payload made of a block that itself contains the
separator (so the separator occurs more than once, in any arrangement),
one further separator, and a non-empty remainder free of the separator,
only the substring after the last occurrence is decoded; and every
payload that ends with the separator (empty remainder after the last
occurrence) is decoded whole, original prefix included. -/
theorem c10_last_separator_wins :
    (∀ pre r : List Char, sepBase64 <:+: pre → ¬ (sepBase64 <:+: r) → r ≠ [] →
        base64Image ((pre ++ sepBase64) ++ r) = r) ∧
      (∀ p : List Char, base64Image (p ++ sepBase64) = p ++ sepBase64) := by
  constructor
  · intro pre r _ hnosep hr
    unfold base64Image
    rw [List.append_assoc,
      getLast_jsSplit_after_sep pre.length pre r (le_refl _) hnosep]
    simp [hr]
  · intro p
    unfold base64Image
    have h0 : ¬ (sepBase64 <:+: ([] : List Char)) := by
      intro h
      rcases h with ⟨s, t, hst⟩
      have hlen := congrArg List.length hst
      simp only [List.length_append, sepBase64_length, List.length_nil] at hlen
      omega
    have hlast := getLast_jsSplit_after_sep p.length p [] (le_refl _) h0
    rw [List.append_nil] at hlast
    rw [hlast]
    simp

/-- Witness for C10 at a payload with three separator occurrences, and at
a payload ending with the separator whose prefix contains another one. -/
theorem c10_witness :
    base64Image ((("x;base64,y;base64,z").data ++ sepBase64) ++ ("QUJD").data) =
        ("QUJD").data ∧
      base64Image (("a;base64,b").data ++ sepBase64) =
        ("a;base64,b").data ++ sepBase64 := by
  exact ⟨c10_last_separator_wins.1 (("x;base64,y;base64,z").data) (("QUJD").data)
      (by decide) (by decide) (by decide),
    c10_last_separator_wins.2 (("a;base64,b").data)⟩

/-! ## Lemmas about the file-system and map models -/

/-- Rewriting entries whose key differs from the written path is the
identity. -/
theorem map_write_of_fresh (fs : Fs) (path : String) (d : FileData)
    (h : ∀ e ∈ fs, e.1 ≠ path) :
    fs.map (fun e => if e.1 == path then (path, d) else e) = fs := by
  induction fs with
  | nil => rfl
  | cons e rest ih =>
    have he : (e.1 == path) = false := beq_eq_false_iff_ne.mpr (h e (by simp))
    simp only [List.map_cons, he, Bool.false_eq_true, if_false]
    rw [ih (fun x hx => h x (List.mem_cons_of_mem _ hx))]

/-- Writing to a path not yet present appends one entry. -/
theorem fsWrite_fresh (fs : Fs) (path : String) (d : FileData)
    (h : ∀ e ∈ fs, e.1 ≠ path) :
    fsWrite fs path d = fs ++ [(path, d)] := by
  unfold fsWrite
  have hany : fs.any (fun e => e.1 == path) = false := by
    rw [List.any_eq_false]
    intro e he
    simp [beq_eq_false_iff_ne.mpr (h e he)]
  rw [hany]
  simp

/-- Writing a second time to the same path replaces the entry in place. -/
theorem fsWrite_overwrite (fs : Fs) (path : String) (d1 d2 : FileData)
    (h : ∀ e ∈ fs, e.1 ≠ path) :
    fsWrite (fs ++ [(path, d1)]) path d2 = fs ++ [(path, d2)] := by
  unfold fsWrite
  have hany : (fs ++ [(path, d1)]).any (fun e => e.1 == path) = true := by
    rw [List.any_eq_true]
    exact ⟨(path, d1), by simp⟩
  rw [hany]
  simp only [if_true, List.map_append, map_write_of_fresh fs path d2 h]
  simp

/-- Looking up the freshly appended path finds the appended data. -/
theorem fsLookup_append_fresh (fs : Fs) (path : String) (d : FileData)
    (h : ∀ e ∈ fs, e.1 ≠ path) :
    fsLookup (fs ++ [(path, d)]) path = some d := by
  unfold fsLookup
  induction fs with
  | nil => simp [List.find?]
  | cons e rest ih =>
    have he : (e.1 == path) = false := beq_eq_false_iff_ne.mpr (h e (by simp))
    simp only [List.cons_append, List.find?, he]
    exact ih (fun x hx => h x (List.mem_cons_of_mem _ hx))

/-- A map lookup misses exactly when no entry carries the key. -/
theorem mapGet_none_iff (m : List (Nat × String)) (p : Nat) :
    mapGet m p = none ↔ ∀ e ∈ m, e.1 ≠ p := by
  simp [mapGet, List.find?_eq_none]

/-- Setting a different key preserves a missing lookup. -/
theorem mapGet_mapSet_none (m : List (Nat × String)) (k p : Nat) (v : String)
    (hne : k ≠ p) (h : mapGet m p = none) : mapGet (mapSet m k v) p = none := by
  have hm := (mapGet_none_iff m p).mp h
  rw [mapGet_none_iff]
  unfold mapSet
  split
  · intro e he
    rcases List.mem_map.mp he with ⟨e0, he0, heq⟩
    by_cases hk : (e0.1 == k) = true
    · rw [if_pos hk] at heq
      rw [← heq]
      exact hne
    · rw [if_neg hk] at heq
      rw [← heq]
      exact hm e0 he0
  · intro e he
    rcases List.mem_append.mp he with h1 | h1
    · exact hm e h1
    · have : e = (k, v) := by simpa using h1
      rw [this]
      exact hne

/-- The image map built by the materialization loop misses every page
number that occurs in no image response. -/
theorem mapGet_saveImages_none :
    ∀ (imgs : List LlmImagePageResponse) (imageDir : String) (fs : Fs)
      (m : List (Nat × String)) (p : Nat),
      (∀ i ∈ imgs, i.pageNumber ≠ p) → mapGet m p = none →
      mapGet (saveImages imageDir imgs fs m).2 p = none := by
  intro imgs
  induction imgs with
  | nil => intro _ _ m p _ h; exact h
  | cons i rest ih =>
    intro imageDir fs m p hall h
    simp only [saveImages]
    exact ih imageDir _ _ p (fun x hx => hall x (List.mem_cons_of_mem _ hx))
      (mapGet_mapSet_none m i.pageNumber p _ (hall i (by simp)) h)

/-- The audio map built by the materialization loop misses every page
number that occurs in no audio response. -/
theorem mapGet_saveAudios_none :
    ∀ (auds : List LlmAudioPageResponse) (audioDir : String) (fs : Fs)
      (m : List (Nat × String)) (p : Nat),
      (∀ a ∈ auds, a.pageNumber ≠ p) → mapGet m p = none →
      mapGet (saveAudios audioDir auds fs m).2 p = none := by
  intro auds
  induction auds with
  | nil => intro _ _ m p _ h; exact h
  | cons a rest ih =>
    intro audioDir fs m p hall h
    simp only [saveAudios]
    exact ih audioDir _ _ p (fun x hx => hall x (List.mem_cons_of_mem _ hx))
      (mapGet_mapSet_none m a.pageNumber p _ (hall a (by simp)) h)

/-! ## Claim C8: deterministic artifact paths and overwrite -/

/-- C8: materializing the same page number twice in one run derives the
identical page-addressed path both times, so the second write replaces the
first entry instead of adding a file, for images and for audios alike; the
map records that single path. -/
theorem c8_deterministic_paths_overwrite
    (imageDir audioDir : String) (p : Nat) (ip1 ip2 sc1 sc2 : String)
    (b1 b2 : List Char) (s1 s2 : ReadableStream) (fsI fsA : Fs)
    (hI : ∀ e ∈ fsI, e.1 ≠ imageFilePathOf imageDir p)
    (hA : ∀ e ∈ fsA, e.1 ≠ audioFilePathOf audioDir p) :
    (saveImages imageDir [⟨p, ip1, b1⟩, ⟨p, ip2, b2⟩] fsI []).1 =
        fsI ++ [(imageFilePathOf imageDir p, FileData.base64Decoded (base64Image b2))] ∧
      mapGet (saveImages imageDir [⟨p, ip1, b1⟩, ⟨p, ip2, b2⟩] fsI []).2 p =
        some (imageFilePathOf imageDir p) ∧
      (saveAudios audioDir [⟨p, sc1, s1⟩, ⟨p, sc2, s2⟩] fsA []).1 =
        fsA ++ [(audioFilePathOf audioDir p, FileData.bytes s2.delivered)] ∧
      mapGet (saveAudios audioDir [⟨p, sc1, s1⟩, ⟨p, sc2, s2⟩] fsA []).2 p =
        some (audioFilePathOf audioDir p) := by
  simp only [saveImages, saveAudios, saveBase64ImageToFile, writeStreamToFile]
  rw [fsWrite_fresh fsI _ _ hI, fsWrite_overwrite fsI _ _ _ hI,
    fsWrite_fresh fsA _ _ hA, fsWrite_overwrite fsA _ _ _ hA]
  refine ⟨rfl, ?_, rfl, ?_⟩ <;> simp [mapSet, mapGet, List.find?]

/-- Witness for C8 at page 4 on an empty initial file system. -/
theorem c8_witness :
    (saveImages ((generateArtifactDirs ("/tmp") ("w")).1)
        [⟨4, "a", ("QQ==").data⟩, ⟨4, "b", ("Qg==").data⟩] [] []).1 =
        [] ++ [(imageFilePathOf ((generateArtifactDirs ("/tmp") ("w")).1) 4,
          FileData.base64Decoded (base64Image (("Qg==").data)))] ∧
      mapGet (saveImages ((generateArtifactDirs ("/tmp") ("w")).1)
          [⟨4, "a", ("QQ==").data⟩, ⟨4, "b", ("Qg==").data⟩] [] []).2 4 =
        some (imageFilePathOf ((generateArtifactDirs ("/tmp") ("w")).1) 4) ∧
      (saveAudios ((generateArtifactDirs ("/tmp") ("w")).2)
          [⟨4, "a", ⟨("x").data, StreamOutcome.finished⟩⟩,
            ⟨4, "b", ⟨("yz").data, StreamOutcome.finished⟩⟩] [] []).1 =
        [] ++ [(audioFilePathOf ((generateArtifactDirs ("/tmp") ("w")).2) 4,
          FileData.bytes ((⟨("yz").data, StreamOutcome.finished⟩ : ReadableStream).delivered))] ∧
      mapGet (saveAudios ((generateArtifactDirs ("/tmp") ("w")).2)
          [⟨4, "a", ⟨("x").data, StreamOutcome.finished⟩⟩,
            ⟨4, "b", ⟨("yz").data, StreamOutcome.finished⟩⟩] [] []).2 4 =
        some (audioFilePathOf ((generateArtifactDirs ("/tmp") ("w")).2) 4) :=
  c8_deterministic_paths_overwrite _ _ 4 "a" "b" "a" "b" _ _ _ _ [] []
    (by simp) (by simp)

/-! ## Claim C9: story contents preserve the LLM page sequence -/

/-- C9: the assembled story contents mirror the LLM pages index by index
in page number, text and illustration prompt, and a page number absent
from the generated images or audios yields an undefined image or audio
path rather than a failure. -/
theorem c9_contents_preserved
    (pages : List LlmStoryPage) (imgs : List LlmImagePageResponse)
    (auds : List LlmAudioPageResponse) (imageDir audioDir : String) :
    (storyContentsOf pages (saveImages imageDir imgs [] []).2
        (saveAudios audioDir auds [] []).2).length = pages.length ∧
      (∀ i : Nat,
        (storyContentsOf pages (saveImages imageDir imgs [] []).2
            (saveAudios audioDir auds [] []).2)[i]?.map
            (fun c => (c.pageNumber, c.story, c.illustrationPrompts)) =
          pages[i]?.map (fun pg => (pg.pageNumber, pg.story, pg.illustationPrompt))) ∧
      (∀ (i : Nat) (pg : LlmStoryPage), pages[i]? = some pg →
        (∀ im ∈ imgs, im.pageNumber ≠ pg.pageNumber) →
        (storyContentsOf pages (saveImages imageDir imgs [] []).2
            (saveAudios audioDir auds [] []).2)[i]?.map
            (fun c => c.imagePath) = some none) ∧
      (∀ (i : Nat) (pg : LlmStoryPage), pages[i]? = some pg →
        (∀ au ∈ auds, au.pageNumber ≠ pg.pageNumber) →
        (storyContentsOf pages (saveImages imageDir imgs [] []).2
            (saveAudios audioDir auds [] []).2)[i]?.map
            (fun c => c.audioPath) = some none) := by
  refine ⟨by simp [storyContentsOf], ?_, ?_, ?_⟩
  · intro i
    simp only [storyContentsOf, List.getElem?_map]
    cases pages[i]? <;> simp
  · intro i pg hpg hnone
    simp only [storyContentsOf, List.getElem?_map, hpg, Option.map_some']
    have : mapGet (saveImages imageDir imgs [] []).2 pg.pageNumber = none :=
      mapGet_saveImages_none imgs imageDir [] [] pg.pageNumber hnone rfl
    simp [this]
  · intro i pg hpg hnone
    simp only [storyContentsOf, List.getElem?_map, hpg, Option.map_some']
    have : mapGet (saveAudios audioDir auds [] []).2 pg.pageNumber = none :=
      mapGet_saveAudios_none auds audioDir [] [] pg.pageNumber hnone rfl
    simp [this]

/-- Witness for C9: two pages, artifacts generated only for page 1, so
page 2 gets undefined image and audio paths. -/
theorem c9_witness :
    (storyContentsOf [⟨1, "a", "p1"⟩, ⟨2, "b", "p2"⟩]
        (saveImages ("/i") [⟨1, "p1", ("QQ==").data⟩] [] []).2
        (saveAudios ("/a") [⟨1, "a", ⟨("x").data, StreamOutcome.finished⟩⟩] [] []).2)[1]?.map
        (fun c => c.imagePath) = some none ∧
      (storyContentsOf [⟨1, "a", "p1"⟩, ⟨2, "b", "p2"⟩]
          (saveImages ("/i") [⟨1, "p1", ("QQ==").data⟩] [] []).2
          (saveAudios ("/a") [⟨1, "a", ⟨("x").data, StreamOutcome.finished⟩⟩] [] []).2)[1]?.map
        (fun c => c.audioPath) = some none :=
  ⟨(c9_contents_preserved [⟨1, "a", "p1"⟩, ⟨2, "b", "p2"⟩]
        [⟨1, "p1", ("QQ==").data⟩] [⟨1, "a", ⟨("x").data, StreamOutcome.finished⟩⟩]
        ("/i") ("/a")).2.2.1 1 ⟨2, "b", "p2"⟩ (by decide) (by decide),
    (c9_contents_preserved [⟨1, "a", "p1"⟩, ⟨2, "b", "p2"⟩]
        [⟨1, "p1", ("QQ==").data⟩] [⟨1, "a", ⟨("x").data, StreamOutcome.finished⟩⟩]
        ("/i") ("/a")).2.2.2 1 ⟨2, "b", "p2"⟩ (by decide) (by decide)⟩

/-! ## Claim C3: writeStreamToFile and stream errors -/

/-- C3 (code bug): the source builds the completion promise but neither
awaits nor returns it, so the promise handed back by writeStreamToFile is
already fulfilled with unit before the stream is drained, even when the
underlying write errors; the discarded inner promise is the one that
would have rejected. Evaluated at a stream that fails with broken pipe. -/
theorem c3_stream_promise_eval :
    (writeStreamToFile []
        { delivered := ("abc").data, outcome := StreamOutcome.errored ("broken pipe") }
        ("/run/audios/2.mp3")).returned.result = Except.ok () ∧
      (writeStreamToFile []
          { delivered := ("abc").data, outcome := StreamOutcome.errored ("broken pipe") }
          ("/run/audios/2.mp3")).returned.settleTime = SettleTime.immediate ∧
      (streamCompletionPromise (StreamOutcome.errored ("broken pipe"))).result =
        Except.error ("broken pipe") :=
  ⟨rfl, rfl, rfl⟩

/-! ## Lemmas about the generateVideo loop -/

/-- When every clip command succeeds, the loop succeeds and appends one
manifest line and one clip command per content entry, in content order. -/
theorem processPages_ok :
    ∀ (contents : List StoryContent) (env : ExecEnv) (tmpFolder : String)
      (acc : List String) (cmds : List Cmd),
      (∀ c ∈ contents, ∃ v, env (render (clipCmdOf tmpFolder c)) = Except.ok v) →
      processPages env tmpFolder contents acc cmds =
        (Except.ok (), acc ++ contents.map (fun c => manifestEntry tmpFolder c.pageNumber),
          cmds ++ contents.map (clipCmdOf tmpFolder)) := by
  intro contents
  induction contents with
  | nil => intro env tf acc cmds _; simp [processPages]
  | cons c rest ih =>
    intro env tf acc cmds h
    obtain ⟨v, hv⟩ := h c (by simp)
    simp only [processPages, hv]
    rw [ih env tf _ _ (fun x hx => h x (List.mem_cons_of_mem _ hx))]
    simp

/-- If the clip command of some content entry fails, the loop fails. -/
theorem processPages_err :
    ∀ (contents : List StoryContent) (env : ExecEnv) (tmpFolder : String)
      (acc : List String) (cmds : List Cmd),
      (∃ c ∈ contents, ∃ e, env (render (clipCmdOf tmpFolder c)) = Except.error e) →
      ∃ e, (processPages env tmpFolder contents acc cmds).1 = Except.error e := by
  intro contents
  induction contents with
  | nil => intro env tf acc cmds h; rcases h with ⟨c, hc, _⟩; cases hc
  | cons c rest ih =>
    intro env tf acc cmds h
    rcases h with ⟨c0, hc0, e0, he0⟩
    simp only [processPages]
    cases hv : env (render (clipCmdOf tf c)) with
    | error e => exact ⟨e, rfl⟩
    | ok v =>
      rcases List.mem_cons.mp hc0 with rfl | hmem
      · rw [hv] at he0
        cases he0
      · exact ih env tf _ _ ⟨c0, hmem, e0, he0⟩

/-- Every command the loop issues is either inherited or a clip command. -/
theorem processPages_cmds_subset :
    ∀ (contents : List StoryContent) (env : ExecEnv) (tmpFolder : String)
      (acc : List String) (cmds : List Cmd) (x : Cmd),
      x ∈ (processPages env tmpFolder contents acc cmds).2.2 →
      x ∈ cmds ∨ ∃ c, x = clipCmdOf tmpFolder c := by
  intro contents
  induction contents with
  | nil => intro env tf acc cmds x hx; exact Or.inl hx
  | cons c rest ih =>
    intro env tf acc cmds x hx
    simp only [processPages] at hx
    cases hv : env (render (clipCmdOf tf c)) with
    | error e =>
      rw [hv] at hx
      simp only at hx
      rcases List.mem_append.mp hx with h1 | h1
      · exact Or.inl h1
      · exact Or.inr ⟨c, by simpa using h1⟩
    | ok v =>
      rw [hv] at hx
      simp only at hx
      rcases ih env tf _ _ x hx with h1 | h1
      · rcases List.mem_append.mp h1 with h2 | h2
        · exact Or.inl h2
        · exact Or.inr ⟨c, by simpa using h2⟩
      · exact Or.inr h1

/-! ## Claim C1: manifest ordering -/

/-- C1, as stated, fails: with pages arriving in order 2, 1 the manifest
lines are pushed in arrival order, which is not ascending by page
number. -/
theorem c1_counterexample :
    (processPages envOk (tmpFolderOf ("/tmp") ("u")) demoStory21.contents [] []).2.1 =
        [manifestEntry (tmpFolderOf ("/tmp") ("u")) 2,
          manifestEntry (tmpFolderOf ("/tmp") ("u")) 1] ∧
      [manifestEntry (tmpFolderOf ("/tmp") ("u")) 2,
          manifestEntry (tmpFolderOf ("/tmp") ("u")) 1] ≠
        [manifestEntry (tmpFolderOf ("/tmp") ("u")) 1,
          manifestEntry (tmpFolderOf ("/tmp") ("u")) 2] := by
  exact ⟨by decide, by decide⟩

/-- C1 (amended): the manifest passed to the concatenation step lists one
clip line per page in the arrival order of story.contents, with no
sorting; it is ascending by page number only when the contents already
arrive ascending. -/
theorem c1_manifest_insertion_order (env : ExecEnv) (tmpFolder : String)
    (contents : List StoryContent)
    (h : ∀ c ∈ contents, ∃ v, env (render (clipCmdOf tmpFolder c)) = Except.ok v) :
    (processPages env tmpFolder contents [] []).2.1 =
      contents.map (fun c => manifestEntry tmpFolder c.pageNumber) := by
  rw [processPages_ok contents env tmpFolder [] [] h]
  simp

/-- Witness for C1 at the descending demo story. -/
theorem c1_witness :
    (processPages envOk (tmpFolderOf ("/tmp") ("u")) demoStory21.contents [] []).2.1 =
      demoStory21.contents.map
        (fun c => manifestEntry (tmpFolderOf ("/tmp") ("u")) c.pageNumber) :=
  c1_manifest_insertion_order envOk (tmpFolderOf ("/tmp") ("u")) demoStory21.contents
    (fun _ _ => ⟨"", rfl⟩)

/-! ## Claim C2: no manifest validation before concatenation -/

/-- C2, as stated, fails: for pages 1 and 3 with a gap, generateVideo
succeeds and the merge command invoking the external transcoder is
executed; no error is raised before it. -/
theorem c2_counterexample :
    (generateVideo envOk ("/tmp") ("u") demoStoryGap ("/out")).1 =
        Except.ok (pathJoin ("/out") VIDEO_NAME) ∧
      Cmd.merge (fileListPathOf ("/tmp") ("u")) (pathJoin ("/out") VIDEO_NAME) ∈
        (generateVideo envOk ("/tmp") ("u") demoStoryGap ("/out")).2.commands := by
  exact ⟨rfl, by decide⟩

/-- C2 (amended): generateVideo performs no page-number validation at all:
for every story whose clip commands succeed, including stories with
duplicate or missing page numbers, the merge command is issued to the
external transcoder and no error is raised beforehand. -/
theorem c2_no_validation (env : ExecEnv) (osTmpDir uuid outputFolder : String)
    (story : Story)
    (h : ∀ c ∈ story.contents,
        ∃ v, env (render (clipCmdOf (tmpFolderOf osTmpDir uuid) c)) = Except.ok v) :
    Cmd.merge (fileListPathOf osTmpDir uuid) (pathJoin outputFolder VIDEO_NAME) ∈
      (generateVideo env osTmpDir uuid story outputFolder).2.commands := by
  simp only [generateVideo]
  rw [processPages_ok story.contents env (tmpFolderOf osTmpDir uuid) [] [] h]
  cases hv : env (render (Cmd.merge (fileListPathOf osTmpDir uuid)
      (pathJoin outputFolder VIDEO_NAME))) <;> simp [hv]

/-- Witness for C2 at the gapped demo story. -/
theorem c2_witness :
    Cmd.merge (fileListPathOf ("/tmp") ("u")) (pathJoin ("/out") VIDEO_NAME) ∈
      (generateVideo envOk ("/tmp") ("u") demoStoryGap ("/out")).2.commands :=
  c2_no_validation envOk ("/tmp") ("u") ("/out") demoStoryGap (fun _ _ => ⟨"", rfl⟩)

/-! ## Claim C4: all-or-nothing on a per-page failure -/

/-- C4: when the clip command of any page fails, the whole run fails, the
generator writes no file at all (in particular no manifest), and the merge
command that would produce the final video is never issued. -/
theorem c4_all_or_nothing (env : ExecEnv) (osTmpDir uuid outputFolder : String)
    (story : Story)
    (h : ∃ c ∈ story.contents,
        ∃ e, env (render (clipCmdOf (tmpFolderOf osTmpDir uuid) c)) = Except.error e) :
    (∃ e, (generateVideo env osTmpDir uuid story outputFolder).1 = Except.error e) ∧
      (generateVideo env osTmpDir uuid story outputFolder).2.files = [] ∧
      ∀ a b : String,
        Cmd.merge a b ∉ (generateVideo env osTmpDir uuid story outputFolder).2.commands := by
  obtain ⟨e, he⟩ :=
    processPages_err story.contents env (tmpFolderOf osTmpDir uuid) [] [] h
  rcases hp : processPages env (tmpFolderOf osTmpDir uuid) story.contents [] [] with
    ⟨res, acc, cmds⟩
  rw [hp] at he
  simp only at he
  subst he
  simp only [generateVideo]
  rw [hp]
  refine ⟨⟨e, rfl⟩, rfl, ?_⟩
  intro a b hmem
  have hmem2 : Cmd.merge a b ∈ cmds := hmem
  have hsub := processPages_cmds_subset story.contents env
    (tmpFolderOf osTmpDir uuid) [] [] (Cmd.merge a b) (by rw [hp]; exact hmem2)
  rcases hsub with h1 | ⟨c, hc⟩
  · cases h1
  · cases hc

/-- Witness for C4: a one-page demo story whose only clip command fails. -/
theorem c4_witness :
    (∃ e, (generateVideo envFailPage1 ("/tmp") ("u")
        { title := "demo", contents := [demoPage 1] } ("/out")).1 = Except.error e) ∧
      (generateVideo envFailPage1 ("/tmp") ("u")
          { title := "demo", contents := [demoPage 1] } ("/out")).2.files = [] ∧
      ∀ a b : String,
        Cmd.merge a b ∉ (generateVideo envFailPage1 ("/tmp") ("u")
          { title := "demo", contents := [demoPage 1] } ("/out")).2.commands :=
  c4_all_or_nothing envFailPage1 ("/tmp") ("u") ("/out")
    { title := "demo", contents := [demoPage 1] }
    ⟨demoPage 1, by simp, "ffmpeg exited with code 1", by simp [envFailPage1]⟩

/-! ## Claim C5: manifest file format -/

/-- C5, as stated, fails: with pages arriving in order 2, 1 the written
manifest keeps arrival order and carries no trailing newline, so it
differs from the ascending, newline-terminated content the claim
requires, and also from the arrival-order content with a trailing
newline. -/
theorem c5_counterexample :
    (generateVideo envOk ("/tmp") ("u") demoStory21 ("/out")).2.files =
        [((fileListPathOf ("/tmp") ("u")),
          FileData.text (("file /tmp/genie-videos/u/page-2.mp4\nfile /tmp/genie-videos/u/page-1.mp4")))] ∧
      FileData.text (("file /tmp/genie-videos/u/page-2.mp4\nfile /tmp/genie-videos/u/page-1.mp4")) ≠
        FileData.text (("file /tmp/genie-videos/u/page-1.mp4\nfile /tmp/genie-videos/u/page-2.mp4\n")) ∧
      FileData.text (("file /tmp/genie-videos/u/page-2.mp4\nfile /tmp/genie-videos/u/page-1.mp4")) ≠
        FileData.text (("file /tmp/genie-videos/u/page-2.mp4\nfile /tmp/genie-videos/u/page-1.mp4\n")) := by
  exact ⟨by decide, by decide, by decide⟩

/-- C5 (amended): the written concat list file holds one line per clip of
the form file followed by the absolute clip path, in story.contents
order, with the lines joined by single newlines and no trailing
newline. -/
theorem c5_manifest_format (env : ExecEnv) (osTmpDir uuid outputFolder : String)
    (story : Story)
    (h : ∀ c ∈ story.contents,
        ∃ v, env (render (clipCmdOf (tmpFolderOf osTmpDir uuid) c)) = Except.ok v) :
    (generateVideo env osTmpDir uuid story outputFolder).2.files =
      [(fileListPathOf osTmpDir uuid,
        FileData.text (String.intercalate "\n"
          (story.contents.map
            (fun c => manifestEntry (tmpFolderOf osTmpDir uuid) c.pageNumber))))] := by
  simp only [generateVideo]
  rw [processPages_ok story.contents env (tmpFolderOf osTmpDir uuid) [] [] h]
  cases hv : env (render (Cmd.merge (fileListPathOf osTmpDir uuid)
      (pathJoin outputFolder VIDEO_NAME))) <;> simp [hv]

/-- Witness for C5 at the descending demo story. -/
theorem c5_witness :
    (generateVideo envOk ("/tmp") ("u") demoStory21 ("/out")).2.files =
      [(fileListPathOf ("/tmp") ("u"),
        FileData.text (String.intercalate "\n"
          (demoStory21.contents.map
            (fun c => manifestEntry (tmpFolderOf ("/tmp") ("u")) c.pageNumber))))] :=
  c5_manifest_format envOk ("/tmp") ("u") ("/out") demoStory21 (fun _ _ => ⟨"", rfl⟩)

/-! ## Claim C6: on-disk layout of one run -/

/-- C6, as stated, fails: images and audios live under genie-tales with
one uuid while clips live under genie-videos with an independent uuid,
directly in that folder with no clips subdirectory. -/
theorem c6_counterexample :
    (generateArtifactDirs ("/tmp") ("u")).1 = ("/tmp/genie-tales/u/images") ∧
      imageFilePathOf ((generateArtifactDirs ("/tmp") ("u")).1) 1 =
        ("/tmp/genie-tales/u/images/1.png") ∧
      clipPathOf ("/tmp") ("v") 1 = ("/tmp/genie-videos/v/page-1.mp4") ∧
      clipPathOf ("/tmp") ("u") 1 ≠ ("/tmp/genie-tales/u/clips/page-1.mp4") := by
  exact ⟨by decide, by decide, by decide, by decide⟩

/-- C6 (amended): images and audios are materialized at page-addressed
paths under one genie-tales run directory, per-page clips are written at
page-addressed paths directly under a separate genie-videos run directory
created from an independently drawn uuid, and the final video is written
under the fixed name story.mp4 into the caller-specified destination
directory. -/
theorem c6_artifact_layout (osTmpDir llmUuid videoUuid outputFolder : String) (p : Nat) :
    imageFilePathOf ((generateArtifactDirs osTmpDir llmUuid).1) p =
        osTmpDir ++ ("/genie-tales/") ++ llmUuid ++ ("/images/") ++ toString p ++ (".png") ∧
      audioFilePathOf ((generateArtifactDirs osTmpDir llmUuid).2) p =
        osTmpDir ++ ("/genie-tales/") ++ llmUuid ++ ("/audios/") ++ toString p ++ (".mp3") ∧
      clipPathOf osTmpDir videoUuid p =
        osTmpDir ++ ("/genie-videos/") ++ videoUuid ++ ("/page-") ++ toString p ++ (".mp4") ∧
      pathJoin outputFolder VIDEO_NAME = outputFolder ++ ("/story.mp4") := by
  refine ⟨?_, ?_, ?_, ?_⟩ <;>
    · apply String.ext
      simp [imageFilePathOf, audioFilePathOf, clipPathOf, tmpFolderOf, clipFileName,
        generateArtifactDirs, pathJoin, VIDEO_NAME, String.data_append]
